import Mathlib

/-!
Verification of the checked_cast library (src/checked_cast.h, src/main.cpp).

The library provides `checked_cast<Target>(Source v)`: if the two types are
the same, or the source type is not integral, the value is returned
unchanged; otherwise the value is converted with `static_cast<Target>`,
converted back with `static_cast<Source>`, and compared with the original
(in the source's domain); a mismatch throws a `std::runtime_error` whose
message starts with `checked_cast<>() overflowed: `.

Embedding choices:
  - a C++ integral type (other than `bool`) is modelled as a bit width plus
    a signedness flag (`IntType`); a value of such a type is an `Int` lying
    in the type's representable range;
  - `static_cast` between integral types is two's-complement wrap-around
    (`wrapCast`), matching the behaviour guaranteed since C++20 and
    implemented by mainstream compilers before it;
  - the full template also dispatches on non-integral types; the type
    universe `CType` and value universe `CVal` model that dispatch, with
    `Option` marking the single case (integral source cast to a
    non-integral target) whose semantics is outside this model;
  - throwing is modelled by `Except`, the single error kind by the
    one-constructor structure `CastError` carrying the
    `__PRETTY_FUNCTION__` descriptor.
-/

/-- A C++ integral type other than `bool`: a bit width and a signedness. -/
structure IntType where
  width : Nat
  signed : Bool
deriving DecidableEq

/-- Number of distinct values of the type: `2 ^ width`. -/
def IntType.modulus (t : IntType) : Int := 2 ^ t.width

/-- Magnitude of the most negative signed value: `2 ^ (width - 1)`. -/
def IntType.half (t : IntType) : Int := 2 ^ (t.width - 1)

/-- Smallest representable value of the type. -/
def IntType.minVal (t : IntType) : Int := if t.signed = true then -t.half else 0

/-- Largest representable value of the type. -/
def IntType.maxVal (t : IntType) : Int := if t.signed = true then t.half - 1 else t.modulus - 1

/-- The integer `v` is representable in the type `t`. -/
def IntType.inRange (t : IntType) (v : Int) : Prop := t.minVal ≤ v ∧ v ≤ t.maxVal

instance (t : IntType) (v : Int) : Decidable (t.inRange v) :=
  inferInstanceAs (Decidable (_ ∧ _))

/-- Two's-complement semantics of `static_cast<t>(v)` for integral `v`:
reduce modulo `2 ^ width`, then reinterpret the high residues as negative
values when the target is signed. -/
def wrapCast (t : IntType) (v : Int) : Int :=
  if t.signed = true ∧ t.half ≤ v % t.modulus then v % t.modulus - t.modulus
  else v % t.modulus

/-- The C++ type universe the template dispatches over: integral types and
an indexed family of non-integral types (pointers, classes, ...). -/
inductive CType where
  | intT (t : IntType)
  | other (id : Nat)
deriving DecidableEq

/-- Model of `std::is_integral`. -/
def CType.is_integral : CType → Bool
  | .intT _ => true
  | .other _ => false

/-- A value together with its C++ type: an integer of an integral type, or
a value of a non-integral type, identified only by type id and value id. -/
inductive CVal where
  | intV (t : IntType) (n : Int)
  | otherV (tyId : Nat) (valId : Nat)
deriving DecidableEq

/-- The C++ type of a value. -/
def CVal.type : CVal → CType
  | .intV t _ => .intT t
  | .otherV tyId _ => .other tyId

/-- Rendering of an integral type name, used in the diagnostic message. -/
def renderIntType (t : IntType) : List Char :=
  (if t.signed then "int" else "uint").data ++ (Nat.repr t.width).data

/-- Rendering of a type name, used in the diagnostic message. -/
def renderCType : CType → List Char
  | .intT t => renderIntType t
  | .other k => ("type").data ++ (Nat.repr k).data

/-- Model of `__PRETTY_FUNCTION__` inside the `checked_cast` template: a
human-readable descriptor of the instantiation. The exact text is
compiler-specific; this model fixes one concrete rendering, and every
theorem about the message holds for an arbitrary descriptor. -/
def prettyFunction (target source : CType) : List Char :=
  ("auto checked_cast(Source) [with Target = ").data ++ renderCType target ++
    ("; Source = ").data ++ renderCType source ++ ("]").data

/-- The single error kind of the mechanism: the thrown `std::runtime_error`,
identified by the `__PRETTY_FUNCTION__` descriptor passed to
`checked_cast_throw`. -/
structure CastError where
  pretty : List Char
deriving DecidableEq

/-- Message built by `checked_cast_throw` (src/checked_cast.h line 19):
the fixed text `checked_cast<>() overflowed: ` followed by the descriptor. -/
def checked_cast_throw_msg (pretty : List Char) : List Char :=
  ("checked_cast<>() overflowed: ").data ++ pretty

/-- The fixed part of the diagnostic message, before the colon. -/
def overflowHead : List Char := ("checked_cast<>() overflowed").data

/-- Model of `first_colon` (src/main.cpp lines 25-28): the part of the
string before the first colon, or the whole string when there is none. -/
def first_colon (s : List Char) : List Char := s.takeWhile (fun c => c != ':')

/-- `checked_cast<target>(v)` for a value `v` of the integral type `source`
(src/checked_cast.h lines 28-42). The `is_same` branch returns `v`; the
`is_integral<Source>` test holds here, so otherwise the value is wrapped
into the target type, wrapped back, compared with the original, and a
mismatch produces the error built from `__PRETTY_FUNCTION__`. -/
def checked_cast (target source : IntType) (v : Int) : Except CastError Int :=
  if target = source then .ok v
  else if wrapCast source (wrapCast target v) = v then .ok (wrapCast target v)
  else .error ⟨prettyFunction (.intT target) (.intT source)⟩

/-- `checked_cast` over the full type universe, replaying the template's
branch order: `is_same<Target, Source>` first, then `!is_integral<Source>`,
then the checked conversion. `none` marks the one reachable case whose
semantics (an integral value `static_cast` to a non-integral target) is
outside this model. -/
def checked_cast_gen (target : CType) (v : CVal) : Option (Except CastError CVal) :=
  if target = v.type then some (.ok v)
  else
    match v with
    | .otherV tyId valId => some (.ok (.otherV tyId valId))
    | .intV s n =>
      match target with
      | .intT t =>
        if wrapCast s (wrapCast t n) = n then some (.ok (.intV t (wrapCast t n)))
        else some (.error ⟨prettyFunction target (.intT s)⟩)
      | .other _ => none

/-- Which of the three `if constexpr` branches of `checked_cast`
(src/checked_cast.h lines 31-41) is taken for a given type pair. -/
inductive CastPath where
  | sameType
  | passThrough
  | checked
deriving DecidableEq

/-- Branch selection of the `checked_cast` template: `is_same` first, then
`!is_integral<Source>`, else the checked conversion. -/
def checked_cast_path (target source : CType) : CastPath :=
  if target = source then .sameType
  else if source.is_integral = false then .passThrough
  else .checked

/-- The value container (src/checked_cast.h lines 51-80), holding one value
by copy. Coercion to a destination type goes through `checked_cast`;
comparison forwards to the stored value's comparison. -/
structure checked_cast_call_container (T : Type) where
  _result : T

/-- `operator==` of the container (lines 65-70): forwards the stored value
to the underlying heterogeneous comparison, with no checked conversion. -/
def container_beq {T U : Type} (eqfn : T → U → Bool)
    (c : checked_cast_call_container T) (u : U) : Bool :=
  eqfn c._result u

/-- `operator!=` of the container (lines 72-76): the negation of
`operator==`. -/
def container_bne {T U : Type} (eqfn : T → U → Bool)
    (c : checked_cast_call_container T) (u : U) : Bool :=
  !(container_beq eqfn c u)

/-- Model of `checked_cast_call<fn>` (src/checked_cast.h lines 87-91) for a
callee with one integral parameter of type `paramTy`, invoked with a
caller-side argument of integral type `argTy`. Argument binding coerces the
wrapped argument first (one `checked_cast` per parameter); the callee runs
only if that conversion succeeds, and its raw return value is wrapped for
the caller to coerce later. Non-integral arguments (the pointer and stream
arguments of `my_write`) take the pass-through branch and cannot fail, so
they are omitted. The second component counts how often the callee ran. -/
def checked_cast_call1 (paramTy argTy : IntType) (fn : Int → Int) (v : Int) :
    Except CastError Int × Nat :=
  match checked_cast paramTy argTy v with
  | .error e => (.error e, 0)
  | .ok a => (.ok (fn a), 1)

/-- Model of `my_write` (src/main.cpp lines 12-16), restricted to its
integral `size` parameter: it returns the size it was given. -/
def my_write (size : Int) : Int := size

/-- `signed char`. -/
def i8 : IntType := ⟨8, true⟩

/-- `unsigned char`. -/
def u8 : IntType := ⟨8, false⟩

/-- `short`. -/
def i16 : IntType := ⟨16, true⟩

/-- `unsigned short`. -/
def u16 : IntType := ⟨16, false⟩

/-- `int`. -/
def i32 : IntType := ⟨32, true⟩

/-- `size_t` on LP64. -/
def u64 : IntType := ⟨64, false⟩

/-! Arithmetic facts about `wrapCast`. -/

theorem IntType.modulus_pos (t : IntType) : 0 < t.modulus := pow_pos (by norm_num) _

theorem IntType.half_pos (t : IntType) : 0 < t.half := pow_pos (by norm_num) _

theorem two_half_eq (t : IntType) (hw : 0 < t.width) : 2 * t.half = t.modulus := by
  unfold IntType.half IntType.modulus
  have h : t.width - 1 + 1 = t.width := Nat.succ_pred_eq_of_pos hw
  calc 2 * (2 : Int) ^ (t.width - 1) = 2 ^ (t.width - 1 + 1) := by rw [pow_succ]; ring
  _ = 2 ^ t.width := by rw [h]

/-- For a value already representable in `t`, `static_cast` is the
identity. -/
theorem wrapCast_of_inRange (t : IntType) (v : Int) (hw : 0 < t.width)
    (hv : t.inRange v) : wrapCast t v = v := by
  obtain ⟨h1, h2⟩ := hv
  have hM := t.modulus_pos
  have hh := t.half_pos
  have h2h := two_half_eq t hw
  unfold wrapCast
  by_cases hs : t.signed = true
  · simp only [IntType.minVal, IntType.maxVal, hs, if_pos] at h1 h2
    rcases le_or_lt 0 v with hv0 | hv0
    · have hm : v % t.modulus = v := Int.emod_eq_of_lt hv0 (by omega)
      rw [hm, if_neg]
      rintro ⟨-, hle⟩
      omega
    · have hm : v % t.modulus = v + t.modulus := by
        have he : (v + t.modulus * 1) % t.modulus = v % t.modulus :=
          @Int.add_mul_emod_self_left v t.modulus 1
        rw [mul_one] at he
        rw [← he]
        exact Int.emod_eq_of_lt (by omega) (by omega)
      rw [hm, if_pos ⟨hs, by omega⟩]
      omega
  · have hs' : t.signed = false := by revert hs; cases t.signed <;> simp
    simp only [IntType.minVal, IntType.maxVal, hs'] at h1 h2
    norm_num at h1 h2
    have hm : v % t.modulus = v := Int.emod_eq_of_lt h1 (by omega)
    rw [hm, if_neg]
    rintro ⟨hc, -⟩
    rw [hs'] at hc
    exact Bool.noConfusion hc

/-- `static_cast` always lands in the target's representable range. -/
theorem wrapCast_inRange (t : IntType) (v : Int) (hw : 0 < t.width) :
    t.inRange (wrapCast t v) := by
  have hM := t.modulus_pos
  have hh := t.half_pos
  have h2h := two_half_eq t hw
  have h0 : 0 ≤ v % t.modulus := Int.emod_nonneg v (ne_of_gt hM)
  have h1 : v % t.modulus < t.modulus := Int.emod_lt_of_pos v hM
  unfold wrapCast IntType.inRange IntType.minVal IntType.maxVal
  by_cases hs : t.signed = true
  · simp only [hs, true_and, if_true]
    by_cases hc : t.half ≤ v % t.modulus
    · simp only [if_pos hc]
      constructor <;> omega
    · simp only [if_neg hc]
      constructor <;> omega
  · simp only [if_neg hs, if_neg (fun h : t.signed = true ∧ _ => hs h.1)]
    constructor <;> omega

/-- `wrapCast` only depends on the residue modulo `2 ^ width`. -/
theorem wrapCast_congr (t : IntType) (v w : Int)
    (h : v % t.modulus = w % t.modulus) : wrapCast t v = wrapCast t w := by
  unfold wrapCast
  rw [h]

/-- Casting to a type at least as wide preserves the residue modulo the
narrower type's modulus. -/
theorem wrapCast_emod (t s : IntType) (hw : s.width ≤ t.width) (v : Int) :
    wrapCast t v % s.modulus = v % s.modulus := by
  have hdvd : s.modulus ∣ t.modulus := pow_dvd_pow 2 hw
  have h0 : t.modulus % s.modulus = 0 := Int.emod_eq_zero_of_dvd hdvd
  unfold wrapCast
  by_cases hc : t.signed = true ∧ t.half ≤ v % t.modulus
  · rw [if_pos hc, Int.sub_emod, h0, sub_zero, Int.emod_emod_of_dvd v hdvd,
      Int.emod_emod_of_dvd v dvd_rfl]
  · rw [if_neg hc]
    exact Int.emod_emod_of_dvd v hdvd

/-- Round trip through a type at least as wide is the identity on
representable values: exactly the case the `checked_cast` guard cannot
distinguish from a lossless conversion. -/
theorem roundtrip_of_width_le (t s : IntType) (hsw : 0 < s.width)
    (hw : s.width ≤ t.width) (v : Int) (hv : s.inRange v) :
    wrapCast s (wrapCast t v) = v := by
  rw [wrapCast_congr s (wrapCast t v) v (wrapCast_emod t s hw v)]
  exact wrapCast_of_inRange s v hsw hv

/-- Between two types of the same signedness, the narrower range is
contained in the wider one. -/
theorem range_mono (t s : IntType) (hsign : t.signed = s.signed)
    (hw : t.width ≤ s.width) (x : Int) (hx : t.inRange x) : s.inRange x := by
  have hmod : t.modulus ≤ s.modulus := by
    unfold IntType.modulus
    exact pow_le_pow_right₀ (by norm_num) hw
  have hhalf : t.half ≤ s.half := by
    unfold IntType.half
    exact pow_le_pow_right₀ (by norm_num) (Nat.sub_le_sub_right hw 1)
  obtain ⟨h1, h2⟩ := hx
  simp only [IntType.inRange, IntType.minVal, IntType.maxVal] at h1 h2 ⊢
  rw [← hsign]
  by_cases hs : t.signed = true
  · simp only [if_pos hs] at h1 h2 ⊢
    constructor <;> omega
  · simp only [if_neg hs] at h1 h2 ⊢
    constructor <;> omega

/-- The unsigned cast result is never negative. -/
theorem wrapCast_nonneg (t : IntType) (v : Int) (hs : t.signed = false) :
    0 ≤ wrapCast t v := by
  unfold wrapCast
  rw [if_neg (fun h => by rw [hs] at h; exact Bool.noConfusion h.1)]
  exact Int.emod_nonneg v (ne_of_gt t.modulus_pos)

/-- The unsigned cast result is bounded by the modulus. -/
theorem wrapCast_lt_modulus (t : IntType) (v : Int) (hs : t.signed = false) :
    wrapCast t v < t.modulus := by
  unfold wrapCast
  rw [if_neg (fun h => by rw [hs] at h; exact Bool.noConfusion h.1)]
  exact Int.emod_lt_of_pos v t.modulus_pos

/-- A non-integral source value takes the `is_same` or `!is_integral`
branch of the template, both of which return it unchanged. -/
theorem gen_pass (T : CType) (v : CVal) (h : v.type.is_integral = false) :
    checked_cast_gen T v = some (.ok v) := by
  unfold checked_cast_gen
  by_cases hT : T = v.type
  · rw [if_pos hT]
  · rw [if_neg hT]
    cases v with
    | intV s n => simp [CVal.type, CType.is_integral] at h
    | otherV a b => rfl

/-- `takeWhile` truncates exactly at the first failing element. -/
theorem takeWhile_append_stop (p : Char → Bool) (l : List Char)
    (hl : ∀ c ∈ l, p c = true) (x : Char) (hx : p x = false) (r : List Char) :
    (l ++ x :: r).takeWhile p = l := by
  induction l with
  | nil => simp [List.takeWhile, hx]
  | cons a as ih =>
    have ha : p a = true := hl a (List.mem_cons_self a as)
    simp only [List.cons_append, List.takeWhile_cons, ha, if_true]
    rw [ih (fun c hc => hl c (List.mem_cons_of_mem a hc))]

/-! Claim theorems. -/

/-- C1: for every integral Source value `v` and integral Target type,
applying `checked_cast<Source>` to the result of `checked_cast<Target>(v)`
either yields a value equal to `v`, or one of the two conversions raises
ConversionOverflow; a silently different value is never produced. -/
theorem checked_cast_roundtrip (t s : IntType) (v : Int) (hv : s.inRange v) :
    (∃ e, checked_cast t s v = .error e) ∨
    (∃ r, checked_cast t s v = .ok r ∧
      ((∃ e, checked_cast s t r = .error e) ∨ checked_cast s t r = .ok v)) := by
  by_cases hts : t = s
  · subst hts
    right
    refine ⟨v, ?_, Or.inr ?_⟩ <;> (unfold checked_cast; rw [if_pos rfl])
  · have hst : ¬ s = t := fun h => hts h.symm
    by_cases hg : wrapCast s (wrapCast t v) = v
    · right
      refine ⟨wrapCast t v, ?_, Or.inr ?_⟩
      · unfold checked_cast
        rw [if_neg hts, if_pos hg]
      · unfold checked_cast
        rw [if_neg hst, hg, if_pos rfl]
    · left
      exact ⟨_, by unfold checked_cast; rw [if_neg hts, if_neg hg]⟩

/-- Witness for C1 at `Target = unsigned char`, `Source = short`,
`v = 300`. -/
theorem checked_cast_roundtrip_witness :
    (∃ e, checked_cast u8 i16 300 = .error e) ∨
    (∃ r, checked_cast u8 i16 300 = .ok r ∧
      ((∃ e, checked_cast i16 u8 r = .error e) ∨ checked_cast i16 u8 r = .ok 300)) :=
  checked_cast_roundtrip u8 i16 300 (by decide)

/-- C5: for every type `T` and every value `v` of type `T`,
`checked_cast<T>(v)` succeeds and returns `v` unchanged: the `is_same`
branch fires, over the full type universe and for the integral-only
model alike. -/
theorem checked_cast_identity :
    (∀ v : CVal, checked_cast_gen v.type v = some (.ok v)) ∧
    (∀ (t : IntType) (n : Int), checked_cast t t n = .ok n) := by
  constructor
  · intro v
    unfold checked_cast_gen
    rw [if_pos rfl]
  · intro t n
    unfold checked_cast
    rw [if_pos rfl]

/-- C6: a value whose source type is not integral is returned unchanged by
`checked_cast` for every requested target type, and no ConversionOverflow
is raised. -/
theorem checked_cast_passthrough (T : CType) (v : CVal)
    (h : v.type.is_integral = false) :
    checked_cast_gen T v = some (.ok v) :=
  gen_pass T v h

/-- Witness for C6: a non-integral value cast to `signed char`. -/
theorem checked_cast_passthrough_witness :
    checked_cast_gen (CType.intT i8) (CVal.otherV 3 7) =
      some (.ok (CVal.otherV 3 7)) :=
  checked_cast_passthrough (CType.intT i8) (CVal.otherV 3 7) rfl

/-- C10: when every value of the integral Source type is representable in
the integral Target type, `checked_cast` never raises; it succeeds and the
result cast back to Source is `v` again. -/
theorem checked_cast_widening (t s : IntType) (v : Int)
    (htw : 0 < t.width) (hsw : 0 < s.width)
    (hsub : ∀ x, s.inRange x → t.inRange x) (hv : s.inRange v) :
    ∃ r, checked_cast t s v = .ok r ∧ wrapCast s r = v := by
  have hsv : wrapCast s v = v := wrapCast_of_inRange s v hsw hv
  by_cases hts : t = s
  · subst hts
    exact ⟨v, by unfold checked_cast; rw [if_pos rfl], hsv⟩
  · have htv : wrapCast t v = v := wrapCast_of_inRange t v htw (hsub v hv)
    refine ⟨v, ?_, hsv⟩
    unfold checked_cast
    rw [if_neg hts, htv, hsv, if_pos rfl]

/-- Witness for C10: `signed char` widened to `int` at `v = -7`. -/
theorem checked_cast_widening_witness :
    ∃ r, checked_cast i32 i8 (-7) = .ok r ∧ wrapCast i8 r = -7 :=
  checked_cast_widening i32 i8 (-7) (by norm_num [i32]) (by norm_num [i8])
    (fun x hx => by
      simp only [IntType.inRange, IntType.minVal, IntType.maxVal, IntType.half,
        IntType.modulus, i8, i32] at hx ⊢
      norm_num at hx ⊢
      omega)
    (by decide)

/-- C2 counterexample: `checked_cast<unsigned char>` applied to the
negative `signed char` value `-1` does not raise; it silently returns
`255`, because the round trip through the equally wide unsigned type wraps
back to `-1` and the guard compares equal. -/
theorem sign_loss_counterexample :
    i8.signed = true ∧ u8.signed = false ∧ i8.inRange (-1) ∧ (-1 : Int) < 0 ∧
    checked_cast u8 i8 (-1) = .ok 255 := by
  refine ⟨rfl, rfl, by decide, by decide, rfl⟩

/-- C2 (amended): a negative value of a signed integral Source converted to
an unsigned integral Target raises ConversionOverflow exactly when the
Target is strictly narrower than the Source; when the Target is at least as
wide, the conversion silently succeeds. -/
theorem sign_loss_iff_narrower (t s : IntType) (v : Int)
    (hss : s.signed = true) (hts : t.signed = false)
    (htw : 0 < t.width) (hsw : 0 < s.width)
    (hv : s.inRange v) (hneg : v < 0) :
    (∃ e, checked_cast t s v = .error e) ↔ t.width < s.width := by
  have hne : t ≠ s := by
    intro h
    rw [h, hss] at hts
    exact Bool.noConfusion hts
  constructor
  · rintro ⟨e, he⟩
    by_contra hlt
    push_neg at hlt
    have hrt := roundtrip_of_width_le t s hsw hlt v hv
    unfold checked_cast at he
    rw [if_neg hne, if_pos hrt] at he
    exact Except.noConfusion he
  · intro hlt
    have h0 : 0 ≤ wrapCast t v := wrapCast_nonneg t v hts
    have h1 : wrapCast t v < t.modulus := wrapCast_lt_modulus t v hts
    have hmh : t.modulus ≤ s.half := by
      unfold IntType.modulus IntType.half
      exact pow_le_pow_right₀ (by norm_num) (by omega)
    have hr : s.inRange (wrapCast t v) := by
      unfold IntType.inRange IntType.minVal IntType.maxVal
      rw [if_pos hss, if_pos hss]
      have := s.half_pos
      constructor <;> omega
    have heq : wrapCast s (wrapCast t v) = wrapCast t v :=
      wrapCast_of_inRange s _ hsw hr
    refine ⟨⟨prettyFunction (.intT t) (.intT s)⟩, ?_⟩
    unfold checked_cast
    rw [if_neg hne, if_neg (by rw [heq]; omega)]

/-- Witness for the amended C2: `short -1` to `unsigned char` does raise. -/
theorem sign_loss_iff_narrower_witness :
    ∃ e, checked_cast u8 i16 (-1) = .error e :=
  (sign_loss_iff_narrower u8 i16 (-1) rfl rfl (by decide) (by decide)
    (by decide) (by decide)).mpr (by decide)

/-- C3 counterexample: the `unsigned char` value `255` lies outside the
range of `signed char`, yet `checked_cast<signed char>` does not raise: it
silently returns `-1`, because `static_cast<unsigned char>(-1)` wraps back
to `255` and the guard compares equal. -/
theorem magnitude_counterexample :
    u8.inRange 255 ∧ ¬ i8.inRange 255 ∧ checked_cast i8 u8 255 = .ok (-1) := by
  refine ⟨by decide, by decide, rfl⟩

/-- C3 (amended): when Source and Target have the same signedness, a Source
value outside the Target's representable range always raises
ConversionOverflow; with mixed signedness an out-of-range value can convert
silently (it raises exactly when the two's-complement round trip fails to
reproduce the value). -/
theorem magnitude_same_signedness (t s : IntType) (v : Int)
    (hsign : t.signed = s.signed) (htw : 0 < t.width)
    (hv : s.inRange v) (hout : ¬ t.inRange v) :
    ∃ e, checked_cast t s v = .error e := by
  have hne : t ≠ s := fun h => hout (h ▸ hv)
  have hwle : t.width ≤ s.width := by
    by_contra h
    push_neg at h
    exact hout (range_mono s t hsign.symm (le_of_lt h) v hv)
  have hsw : 0 < s.width := lt_of_lt_of_le htw hwle
  have hr : t.inRange (wrapCast t v) := wrapCast_inRange t v htw
  have hrs : s.inRange (wrapCast t v) := range_mono t s hsign hwle _ hr
  have heq : wrapCast s (wrapCast t v) = wrapCast t v :=
    wrapCast_of_inRange s _ hsw hrs
  have hneq : wrapCast t v ≠ v := fun h => hout (h ▸ hr)
  refine ⟨⟨prettyFunction (.intT t) (.intT s)⟩, ?_⟩
  unfold checked_cast
  rw [if_neg hne, if_neg (by rw [heq]; exact hneq)]

/-- Witness for the amended C3: `unsigned short 300` to `unsigned char`
raises. -/
theorem magnitude_same_signedness_witness :
    ∃ e, checked_cast u8 u16 300 = .error e :=
  magnitude_same_signedness u8 u16 300 rfl (by decide) (by decide) (by decide)

/-- C4 counterexample: for an integral Source (`int`) and a distinct
non-integral Target, the template still takes the checked-conversion
branch, because the code only tests `is_integral<Source>`; the claim
predicted the unchecked pass-through for this case. -/
theorem path_selection_counterexample :
    checked_cast_path (CType.other 0) (CType.intT i32) = CastPath.checked ∧
    (CType.other 0).is_integral = false ∧
    CType.other 0 ≠ CType.intT i32 := by
  refine ⟨rfl, rfl, by decide⟩

/-- C4 (amended): `checked_cast` performs the round-trip-verified
conversion exactly when Source and Target are distinct types and the
Source is integral, regardless of whether the Target is; in every other
case the stored value is returned unchanged with no check. -/
theorem path_selection_amended :
    (∀ T S : CType, checked_cast_path T S = CastPath.checked ↔
      (T ≠ S ∧ S.is_integral = true)) ∧
    (∀ (T : CType) (v : CVal), checked_cast_path T v.type ≠ CastPath.checked →
      checked_cast_gen T v = some (.ok v)) := by
  constructor
  · intro T S
    unfold checked_cast_path
    by_cases h1 : T = S
    · rw [if_pos h1]
      simp [h1]
    · rw [if_neg h1]
      by_cases h2 : S.is_integral = false
      · rw [if_pos h2]
        simp [h1, h2]
      · rw [if_neg h2]
        have h2' : S.is_integral = true := by
          revert h2
          cases S.is_integral <;> simp
        simp [h1, h2']
  · intro T v h
    by_cases hT : T = v.type
    · unfold checked_cast_gen
      rw [if_pos hT]
    · have hi : v.type.is_integral = false := by
        by_contra hi
        apply h
        unfold checked_cast_path
        rw [if_neg hT, if_neg hi]
      exact gen_pass T v hi

/-- Witness for the amended C4: `int` to `unsigned char` is a checked
conversion, and a non-integral value passed to an integral target is
returned unchanged. -/
theorem path_selection_amended_witness :
    checked_cast_path (CType.intT u8) (CType.intT i32) = CastPath.checked ∧
    checked_cast_gen (CType.intT i8) (CVal.otherV 1 2) =
      some (.ok (CVal.otherV 1 2)) :=
  ⟨(path_selection_amended.1 (CType.intT u8) (CType.intT i32)).mpr
      ⟨by decide, rfl⟩,
    path_selection_amended.2 (CType.intT i8) (CVal.otherV 1 2) (by decide)⟩

/-- C7: every ConversionOverflow failure raised by a checked conversion
carries the descriptor passed to `checked_cast_throw`, whose message is the
fixed text `checked_cast<>() overflowed` followed by `: ` and the
descriptor; hence the part of the message before the first colon is exactly
`checked_cast<>() overflowed`, and (by the error type having a single
constructor) this is the only error kind the mechanism raises. -/
theorem overflow_message_shape (t s : IntType) (v : Int) (e : CastError)
    (h : checked_cast t s v = .error e) :
    e = ⟨prettyFunction (.intT t) (.intT s)⟩ ∧
    checked_cast_throw_msg e.pretty = overflowHead ++ (':' :: ' ' :: e.pretty) ∧
    first_colon (checked_cast_throw_msg e.pretty) = overflowHead := by
  have hsplit : ("checked_cast<>() overflowed: ").data =
      overflowHead ++ [':', ' '] := by decide
  have he : e = ⟨prettyFunction (.intT t) (.intT s)⟩ := by
    unfold checked_cast at h
    by_cases h1 : t = s
    · rw [if_pos h1] at h
      exact Except.noConfusion h
    · rw [if_neg h1] at h
      by_cases h2 : wrapCast s (wrapCast t v) = v
      · rw [if_pos h2] at h
        exact Except.noConfusion h
      · rw [if_neg h2] at h
        exact (Except.error.inj h).symm
  refine ⟨he, ?_, ?_⟩
  · unfold checked_cast_throw_msg
    rw [hsplit]
    simp
  · unfold first_colon checked_cast_throw_msg
    rw [hsplit, List.append_assoc]
    exact takeWhile_append_stop _ overflowHead (by decide) ':' (by decide) _

/-- Witness for C7 at the failing conversion of `int 200` to
`signed char`. -/
theorem overflow_message_shape_witness :
    first_colon (checked_cast_throw_msg
      (CastError.mk (prettyFunction (.intT i8) (.intT i32))).pretty) =
      overflowHead :=
  (overflow_message_shape i8 i32 200
    ⟨prettyFunction (.intT i8) (.intT i32)⟩ rfl).2.2

/-- C8: a wrapped call invokes the callable at most once: exactly once when
the input-argument conversion succeeds, and zero times when it fails (the
error is produced before the callee runs); in particular, a callee whose
count parameter is a signed byte, invoked with a `size_t` argument of 142,
fails without the callee ever executing. -/
theorem call_invocation_discipline :
    (∀ (pt a : IntType) (fn : Int → Int) (v : Int),
      (checked_cast_call1 pt a fn v).2 ≤ 1 ∧
      ((∃ r, checked_cast pt a v = .ok r) →
        (checked_cast_call1 pt a fn v).2 = 1) ∧
      (∀ e, checked_cast pt a v = .error e →
        checked_cast_call1 pt a fn v = (.error e, 0))) ∧
    ((checked_cast_call1 i8 u64 my_write 142).2 = 0 ∧
      ∃ e, (checked_cast_call1 i8 u64 my_write 142).1 = .error e) := by
  constructor
  · intro pt a fn v
    refine ⟨?_, ?_, ?_⟩
    · rcases hc : checked_cast pt a v with e | r <;>
        simp [checked_cast_call1, hc]
    · rintro ⟨r, hr⟩
      simp [checked_cast_call1, hr]
    · intro e he
      simp [checked_cast_call1, he]
  · exact ⟨rfl, ⟨⟨prettyFunction (.intT i8) (.intT u64)⟩, rfl⟩⟩

/-- Witness for C8: the 100-byte call runs the callee once; the 142-byte
call fails with the callee never run. -/
theorem call_invocation_discipline_witness :
    (checked_cast_call1 i8 u64 my_write 100).2 = 1 ∧
    checked_cast_call1 i8 u64 my_write 142 =
      (.error ⟨prettyFunction (.intT i8) (.intT u64)⟩, 0) :=
  ⟨(call_invocation_discipline.1 i8 u64 my_write 100).2.1 ⟨100, rfl⟩,
    (call_invocation_discipline.1 i8 u64 my_write 142).2.2
      ⟨prettyFunction (.intT i8) (.intT u64)⟩ rfl⟩

/-- C9: the container's equality operator returns exactly the stored
value's comparison with the other operand, performing no checked conversion
and hence never raising (its result is a plain boolean, not a conversion
outcome), and the inequality operator returns exactly the negation of the
equality operator. -/
theorem container_eq_forwarding {T U : Type} (eqfn : T → U → Bool)
    (c : checked_cast_call_container T) (u : U) :
    container_beq eqfn c u = eqfn c._result u ∧
    container_bne eqfn c u = !(container_beq eqfn c u) :=
  ⟨rfl, rfl⟩
